import Mathlib

/-!
Verification of the Chonkywalls wallpaper layout engine.

The repository has two scripts, `Chaos.py` (deterministic chunk-grid layout,
"Mode A") and `zen3.py` (weighted free-flow layout, "Mode B").  Both share the
same occupancy-grid primitives (`fits` / `occupy`), differ in how they choose
a chunk shape and an anchor cell, and both convert a grid placement into a
pixel rectangle using the same padding arithmetic before fitting an image
into it.

This file gives a shallow embedding of the placement-relevant behaviour of
both scripts and proves the specification claims about them.  The grid is a
total occupancy function `ℕ → ℕ → Bool`; every access the Python code makes
is bounds-checked by `fits` before it happens, so the out-of-range values of
the function are never consulted.  Image pixel data never influences which
cells get claimed, so the layout loops are modelled over the number of
loaded images; the aspect-ratio fitting of a single image into its target
rectangle is modelled separately over exact rational arithmetic.

The file is organised with all definitions first, followed by all theorems.
-/

namespace Chonkywalls

/-- Occupancy grid over row/column cell coordinates, `true` = claimed.
Models the Python value `grid = [[False]*GRID_COLS for _ in range(GRID_ROWS)]`
as its characteristic function. -/
def Grid : Type := ℕ → ℕ → Bool

/-- The freshly created all-free grid. -/
def emptyGrid : Grid := fun _ _ => false

/-- The `occupy(chunk_w, chunk_h, row, col)` helper (Chaos.py lines 77-80,
zen3.py lines 101-104): marks every cell of the chunk rectangle occupied. -/
def occupy (g : Grid) (cw ch row col : ℕ) : Grid :=
  fun r c => if row ≤ r ∧ r < row + ch ∧ col ≤ c ∧ c < col + cw then true else g r c

/-- The `fits(chunk_w, chunk_h, row, col)` helper (Chaos.py lines 68-75,
zen3.py lines 92-99): the rectangle must stay inside the grid and every cell
of it must still be free. -/
def fits (rows cols : ℕ) (g : Grid) (cw ch row col : ℕ) : Bool :=
  if rows < row + ch ∨ cols < col + cw then false
  else (List.range' row ch).all fun r => (List.range' col cw).all fun c => !(g r c)

/-- One successful placement as recorded by either layout loop: the image
queue index it consumed, the chunk shape, the anchor cell, and the pixel
rectangle `(px, py, pw, ph)` computed for it. -/
structure Placement where
  imgIdx : ℕ
  cw : ℕ
  ch : ℕ
  row : ℕ
  col : ℕ
  px : ℕ
  py : ℕ
  pw : ℕ
  ph : ℕ
deriving DecidableEq, Repr

/-- Cell `(r, c)` lies in the cell rectangle claimed by placement `p`. -/
def InRect (p : Placement) (r c : ℕ) : Prop :=
  p.row ≤ r ∧ r < p.row + p.ch ∧ p.col ≤ c ∧ c < p.col + p.cw

instance (p : Placement) (r c : ℕ) : Decidable (InRect p r c) := by
  unfold InRect; infer_instance

/-- The cell rectangles of two placements share no grid cell. -/
def RectDisjoint (p q : Placement) : Prop :=
  ∀ r c, InRect p r c → InRect q r c → False

/-- A placement sequence is valid from grid `g` when each placement's `fits`
check succeeds on the grid produced by occupying all earlier placements.
Both layout loops only ever record placements this way. -/
def validSeq (rows cols : ℕ) : Grid → List Placement → Bool
  | _, [] => true
  | g, p :: ps =>
    fits rows cols g p.cw p.ch p.row p.col &&
      validSeq rows cols (occupy g p.cw p.ch p.row p.col) ps

/-- The grid obtained after occupying every placement of the list in order. -/
def runGrid (g : Grid) (ps : List Placement) : Grid :=
  ps.foldl (fun g p => occupy g p.cw p.ch p.row p.col) g

/-- Pointwise ordering of grids: every cell occupied in `g` is occupied
in `g'`. -/
def GridLE (g g' : Grid) : Prop := ∀ r c, g r c = true → g' r c = true

/-- First anchor `(row, col)` in row-major order whose `fits` check passes,
mirroring the nested `for row in range(GRID_ROWS): for col in
range(GRID_COLS): if fits(...): ... break` loops of Chaos.py lines 85-87. -/
def findFirstFit (rows cols : ℕ) (g : Grid) (cw ch : ℕ) : Option (ℕ × ℕ) :=
  (List.range rows).findSome? fun row =>
    ((List.range cols).find? fun col => fits rows cols g cw ch row col).map
      fun col => (row, col)

/-- Pixel size of one grid cell along one axis:
`(screen - 2 * OUTER_PADDING - (cells - 1) * INNER_PADDING) // cells`
(Chaos.py lines 61-62, zen3.py lines 80-81, instantiated per axis). -/
def cell_size (screen cells op ip : ℕ) : ℕ :=
  (screen - 2 * op - (cells - 1) * ip) / cells

/-- Insertion of `x` into a list sorted descending by `lt` (stable: `x` goes
after existing entries it does not strictly exceed). -/
def insertDesc {α : Type} (lt : α → α → Bool) (x : α) : List α → List α
  | [] => [x]
  | y :: ys => if lt y x then x :: y :: ys else y :: insertDesc lt x ys

/-- Stable descending sort, modelling `positions.sort(reverse=True)` of
zen3.py line 124.  Only the fact that the result is a permutation of the
candidate list matters to the claims proved here (which of the tied
candidates comes first never does, since a random choice follows). -/
def sortDesc {α : Type} (lt : α → α → Bool) : List α → List α
  | [] => []
  | x :: xs => insertDesc lt x (sortDesc lt xs)

namespace Chaos

def GRID_ROWS : ℕ := 6
def GRID_COLS : ℕ := 24
def OUTER_PADDING : ℕ := 30
def INNER_PADDING : ℕ := 12

/-- Chunk catalog of Chaos.py lines 14-23, `(width, height)` in cells. -/
def CHUNKS : List (ℕ × ℕ) :=
  [(6, 3), (4, 3), (3, 2), (2, 3), (2, 2), (2, 1), (1, 2), (1, 1)]

/-- One iteration of Mode A's chunk loop: the attempted shape and, when the
row-major scan found a fit and an image was still available, the recorded
placement. -/
structure Attempt where
  cw : ℕ
  ch : ℕ
  res : Option Placement
deriving DecidableEq, Repr

/-- The successful placements of an attempt trace, in order. -/
def placementsA (t : List Attempt) : List Placement :=
  t.filterMap fun a => a.res

/-- The `for chunk_w, chunk_h in CHUNKS * 100` loop of Chaos.py lines 82-116,
reduced to its attempt/placement trace.  Each iteration scans row-major for
the first fit; on a fit it returns the canvas if the image queue is already
exhausted (recording nothing further), otherwise it consumes image index
`idx`, records the pixel rectangle of lines 93-96, and occupies the grid. -/
def chunkLoop (rows cols op ip cW cH n : ℕ) :
    List (ℕ × ℕ) → Grid → ℕ → List Attempt
  | [], _, _ => []
  | s :: rest, g, idx =>
    match findFirstFit rows cols g s.1 s.2 with
    | none => ⟨s.1, s.2, none⟩ :: chunkLoop rows cols op ip cW cH n rest g idx
    | some (row, col) =>
      if n ≤ idx then []
      else
        ⟨s.1, s.2, some ⟨idx, s.1, s.2, row, col,
            op + col * (cW + ip), op + row * (cH + ip),
            s.1 * cW + (s.1 - 1) * ip, s.2 * cH + (s.2 - 1) * ip⟩⟩ ::
          chunkLoop rows cols op ip cW cH n rest (occupy g s.1 s.2 row col) (idx + 1)

/-- Attempt trace of Mode A (`create_chunk_grid_layout`, Chaos.py lines
57-117) for `n` loaded images on a `sw × sh` screen.  Image pixel content
never influences which cells are claimed, so the trace is a function of the
image count alone. -/
def create_chunk_grid_layout (n sw sh : ℕ) : List Attempt :=
  chunkLoop GRID_ROWS GRID_COLS OUTER_PADDING INNER_PADDING
    (cell_size sw GRID_COLS OUTER_PADDING INNER_PADDING)
    (cell_size sh GRID_ROWS OUTER_PADDING INNER_PADDING) n
    (List.flatten (List.replicate 100 CHUNKS)) emptyGrid 0

/-- The placements Mode A performs. -/
def chaosPlacements (n sw sh : ℕ) : List Placement :=
  placementsA (create_chunk_grid_layout n sw sh)

end Chaos

namespace Zen3

def GRID_ROWS : ℕ := 8
def GRID_COLS : ℕ := 28
def OUTER_PADDING : ℕ := 20
def INNER_PADDING : ℕ := 6

/-- Chunk catalog of zen3.py lines 15-28, `(width, height)` in cells. -/
def CHUNKS : List (ℕ × ℕ) :=
  [(4, 2), (3, 2), (2, 3), (3, 1), (2, 2), (1, 3),
   (2, 1), (1, 2), (1, 1), (4, 1), (1, 4), (3, 3)]

/-- Selection weights of zen3.py lines 30-43, parallel to `CHUNKS`. -/
def CHUNK_WEIGHTS : List ℕ := [2, 3, 4, 3, 5, 3, 6, 6, 10, 2, 2, 1]

/-- Occupied-neighbor count of zen3.py lines 114-118: occupied cells inside
the one-cell-expanded bounding box of the candidate rectangle, clamped to
the grid (`max(0, row - 1)` is ℕ truncated subtraction `row - 1`). -/
def neighborCount (rows cols : ℕ) (g : Grid) (cw ch row col : ℕ) : ℕ :=
  ((List.range' (row - 1) (min rows (row + ch + 1) - (row - 1))).map fun r =>
    (List.range' (col - 1) (min cols (col + cw + 1) - (col - 1))).countP fun c =>
      g r c).sum

/-- The candidate score of zen3.py line 120,
`neighbors - row * 0.1 - col * 0.05`, stored scaled by 20 so it stays in ℤ
(the exact-arithmetic reading of the float formula; scaling by 20 is
strictly monotone, so candidate ordering is unchanged). -/
def score20 (rows cols : ℕ) (g : Grid) (cw ch row col : ℕ) : ℤ :=
  20 * (neighborCount rows cols g cw ch row col : ℤ) - 2 * (row : ℤ) - (col : ℤ)

/-- Strict lexicographic comparison of `(score, row, col)` candidate tuples,
the key under which `positions.sort(reverse=True)` orders candidates. -/
def posLt (a b : ℤ × ℕ × ℕ) : Bool :=
  decide (a.1 < b.1 ∨ (a.1 = b.1 ∧ (a.2.1 < b.2.1 ∨ (a.2.1 = b.2.1 ∧ a.2.2 < b.2.2))))

/-- The scored candidate list built by `find_best_position` (zen3.py lines
109-121): every in-range anchor where the chunk fits, with its score. -/
def candidatePositions (rows cols : ℕ) (g : Grid) (cw ch : ℕ) : List (ℤ × ℕ × ℕ) :=
  (List.range rows).flatMap fun row =>
    (List.range cols).filterMap fun col =>
      if fits rows cols g cw ch row col = true then
        some (score20 rows cols g cw ch row col, row, col)
      else none

/-- zen3.py lines 106-127: collect scored candidates, sort descending, keep
the top `min 5 len` of them, and let the randomness oracle `pick` choose one
(modelling `random.choice(top_positions)`); `none` when no candidate
exists. -/
def find_best_position (rows cols : ℕ) (g : Grid) (cw ch pick : ℕ) : Option (ℕ × ℕ) :=
  let positions := candidatePositions rows cols g cw ch
  if positions.isEmpty then none
  else
    let sorted := sortDesc posLt positions
    let top := sorted.take (min 5 sorted.length)
    (top.get? (pick % top.length)).map fun t => (t.2.1, t.2.2)

/-- Whether some anchor admits the chunk: the condition under which
`find_best_position` returns a position. -/
def has_placement (rows cols : ℕ) (g : Grid) (cw ch : ℕ) : Bool :=
  !(candidatePositions rows cols g cw ch).isEmpty

/-- Weighted bucket selection: walk the catalog subtracting weights until
the draw lands inside a bucket.  Models the cumulative-weight selection of
`random.choices(CHUNKS, weights=CHUNK_WEIGHTS, k=1)[0]` (zen3.py lines
129-131); the oracle value is reduced modulo the total weight at the call
site, so every draw lands in some bucket. -/
def pickWeighted : List (ℕ × ℕ) → List ℕ → ℕ → ℕ × ℕ
  | [], _, _ => (1, 1)
  | c :: _, [], _ => c
  | c :: cs, w :: ws, u => if u < w then c else pickWeighted cs ws (u - w)

def total_weight : ℕ := CHUNK_WEIGHTS.sum

/-- The `get_random_chunk` helper of zen3.py lines 129-131, driven by the
draw oracle value `u`. -/
def get_random_chunk (u : ℕ) : ℕ × ℕ :=
  pickWeighted CHUNKS CHUNK_WEIGHTS (u % total_weight)

/-- zen3.py lines 142-151: try the drawn shape; when it has no position, try
the fallback shapes `(2, 1), (1, 2), (1, 1)` in order and stop at the first
that has one.  The result carries the shape actually used and its anchor.
`picks k` is the `random.choice` oracle for the k-th `find_best_position`
call of this iteration. -/
def tryWithFallback (rows cols : ℕ) (g : Grid) (cw ch : ℕ) (picks : ℕ → ℕ) :
    Option ((ℕ × ℕ) × ℕ × ℕ) :=
  match find_best_position rows cols g cw ch (picks 0) with
  | some rc => some ((cw, ch), rc)
  | none =>
    match find_best_position rows cols g 2 1 (picks 1) with
    | some rc => some ((2, 1), rc)
    | none =>
      match find_best_position rows cols g 1 2 (picks 2) with
      | some rc => some ((1, 2), rc)
      | none =>
        match find_best_position rows cols g 1 1 (picks 3) with
        | some rc => some ((1, 1), rc)
        | none => none

/-- One iteration of Mode B's while loop: the drawn shape and, when a
position was found (for it or a fallback), the recorded placement. -/
structure Iter where
  drawnW : ℕ
  drawnH : ℕ
  res : Option Placement
deriving DecidableEq, Repr

/-- The successful placements of an iteration trace, in order. -/
def placementsB (t : List Iter) : List Placement :=
  t.filterMap fun a => a.res

/-- The `while image_idx < len(shuffled_images) and placement_attempts <
max_attempts` loop of zen3.py lines 137-193, reduced to its iteration
trace.  `fuel` is the number of attempts still allowed (`max_attempts -
placement_attempts`), decremented exactly once per iteration, mirroring the
`placement_attempts += 1` at the top of the body; `us` supplies the weighted
chunk draw oracle per attempt and `picks` the `random.choice` oracles. -/
def freeflowLoop (rows cols op ip cW cH n : ℕ) (us : ℕ → ℕ) (picks : ℕ → ℕ → ℕ) :
    ℕ → Grid → ℕ → ℕ → List Iter
  | 0, _, _, _ => []
  | fuel + 1, g, idx, att =>
    if n ≤ idx then []
    else
      let d := get_random_chunk (us att)
      match tryWithFallback rows cols g d.1 d.2 (picks att) with
      | none =>
        ⟨d.1, d.2, none⟩ ::
          freeflowLoop rows cols op ip cW cH n us picks fuel g idx (att + 1)
      | some (s, row, col) =>
        ⟨d.1, d.2, some ⟨idx, s.1, s.2, row, col,
            op + col * (cW + ip), op + row * (cH + ip),
            s.1 * cW + (s.1 - 1) * ip, s.2 * cH + (s.2 - 1) * ip⟩⟩ ::
          freeflowLoop rows cols op ip cW cH n us picks fuel
            (occupy g s.1 s.2 row col) (idx + 1) (att + 1)

/-- Iteration trace of Mode B (`create_freeflow_layout`, zen3.py lines
74-199) for `n` loaded images on a `sw × sh` screen:
`max_attempts = len(shuffled_images) * 3` and both counters start at 0. -/
def create_freeflow_layout (n sw sh : ℕ) (us : ℕ → ℕ) (picks : ℕ → ℕ → ℕ) : List Iter :=
  freeflowLoop GRID_ROWS GRID_COLS OUTER_PADDING INNER_PADDING
    (cell_size sw GRID_COLS OUTER_PADDING INNER_PADDING)
    (cell_size sh GRID_ROWS OUTER_PADDING INNER_PADDING) n us picks
    (n * 3) emptyGrid 0 0

/-- The placements Mode B performs. -/
def freeflowPlacements (n sw sh : ℕ) (us : ℕ → ℕ) (picks : ℕ → ℕ → ℕ) : List Placement :=
  placementsB (create_freeflow_layout n sw sh us picks)

end Zen3

/-- Result of Mode A's scale-and-center step (Chaos.py lines 98-111): the
resized image dimensions and the top-left paste offset on the canvas. -/
structure FitResult where
  new_width : ℤ
  new_height : ℤ
  offset_x : ℤ
  offset_y : ℤ
deriving DecidableEq, Repr

/-- Mode A's fit-without-crop (Chaos.py lines 98-110): pick the scaled size
by aspect-ratio comparison (`int()` truncation on the positive values in
play is `⌊·⌋`), then center the result on the target rectangle with Python
floor division (`Int.fdiv`). -/
def fit_without_crop (imgW imgH : ℕ) (x y w h : ℤ) : FitResult :=
  let aspect_img : ℚ := (imgW : ℚ) / (imgH : ℚ)
  let aspect_chunk : ℚ := (w : ℚ) / (h : ℚ)
  let nw : ℤ := if aspect_chunk < aspect_img then ⌊(h : ℚ) * aspect_img⌋ else w
  let nh : ℤ := if aspect_chunk < aspect_img then h else ⌊(w : ℚ) / aspect_img⌋
  ⟨nw, nh, x + Int.fdiv (w - nw) 2, y + Int.fdiv (h - nh) 2⟩

/-- Result of Mode B's fit-with-crop step (zen3.py lines 164-186): resized
dimensions, the crop box origin inside the resized image (0 on an axis when
no crop happens), and the pasted rectangle on the canvas. -/
structure CropFit where
  new_width : ℤ
  new_height : ℤ
  crop_x : ℤ
  crop_y : ℤ
  paste_x : ℤ
  paste_y : ℤ
  paste_w : ℤ
  paste_h : ℤ
deriving DecidableEq, Repr

/-- Mode B's fit-with-crop (zen3.py lines 164-186).  The overflow branch
crops `(crop_x, crop_y, crop_x + w, crop_y + h)` out of the resized image —
a region of exactly the target rectangle's size — and pastes it at the
rectangle origin; otherwise the resized image itself is pasted at the
centered offsets of lines 170-176. -/
def fit_with_crop (imgW imgH : ℕ) (x y w h : ℤ) : CropFit :=
  let aspect_img : ℚ := (imgW : ℚ) / (imgH : ℚ)
  let aspect_chunk : ℚ := (w : ℚ) / (h : ℚ)
  let nw : ℤ := if aspect_chunk < aspect_img then ⌊(h : ℚ) * aspect_img⌋ else w
  let nh : ℤ := if aspect_chunk < aspect_img then h else ⌊(w : ℚ) / aspect_img⌋
  let ox : ℤ := if aspect_chunk < aspect_img then x - Int.fdiv (nw - w) 2 else x
  let oy : ℤ := if aspect_chunk < aspect_img then y else y - Int.fdiv (nh - h) 2
  if w < nw ∨ h < nh then
    ⟨nw, nh, max 0 (Int.fdiv (nw - w) 2), max 0 (Int.fdiv (nh - h) 2), x, y, w, h⟩
  else
    ⟨nw, nh, 0, 0, ox, oy, nw, nh⟩

/-- Swap the entries at positions `i` and `j` (identity when out of range). -/
def swapAt {α : Type} (l : List α) (i j : ℕ) : List α :=
  match l.get? i, l.get? j with
  | some a, some b => (l.set i b).set j a
  | _, _ => l

/-- Fisher-Yates shuffle as CPython's `random.shuffle` performs it in place:
`for i in reversed(range(1, len(x))): j = randbelow(i + 1); swap x[i], x[j]`.
`draws` is the randomness oracle, reduced modulo `i + 1` like `randbelow`. -/
def pyShuffle {α : Type} (draws : ℕ → ℕ) (l : List α) : List α :=
  ((List.range' 1 (l.length - 1)).reverse).foldl
    (fun acc i => swapAt acc i (draws i % (i + 1))) l

/-- Chaos.py line 66 runs `random.shuffle(images)` on the caller's own list
object, so after `create_chunk_grid_layout` returns, the caller's argument
list holds the shuffled contents. -/
def chaos_images_after {α : Type} (draws : ℕ → ℕ) (images : List α) : List α :=
  pyShuffle draws images

/-- zen3.py lines 89-90 shuffle `images.copy()` and only ever read the copy,
so the caller's argument list is unchanged after `create_freeflow_layout`
returns. -/
def zen3_images_after {α : Type} (_draws : ℕ → ℕ) (images : List α) : List α :=
  images

/-- Stated by the spec (§4.3): a placement's pixel origin per axis is
`outer_padding + index * (cell_size + inner_padding)`. -/
def spec_origin (op ip cell idx : ℕ) : ℕ := op + idx * (cell + ip)

/-- Stated by the spec (§4.3): a placement's pixel size per axis is
`shape_cells * cell_size + (shape_cells - 1) * inner_padding`. -/
def spec_extent (cells cell ip : ℕ) : ℕ := cells * cell + (cells - 1) * ip

/-! ## Theorems -/

theorem gridLE_refl (g : Grid) : GridLE g g := fun _ _ h => h

theorem gridLE_trans {g₁ g₂ g₃ : Grid} (h₁ : GridLE g₁ g₂) (h₂ : GridLE g₂ g₃) :
    GridLE g₁ g₃ := fun r c h => h₂ r c (h₁ r c h)

theorem gridLE_occupy (g : Grid) (cw ch row col : ℕ) :
    GridLE g (occupy g cw ch row col) := by
  intro r c h
  unfold occupy
  split <;> simp [h]

theorem occupy_of_inRect {p : Placement} {r c : ℕ} (h : InRect p r c) (g : Grid) :
    occupy g p.cw p.ch p.row p.col r c = true := by
  unfold occupy InRect at *
  rw [if_pos h]

theorem fits_bounds {rows cols cw ch row col : ℕ} {g : Grid}
    (h : fits rows cols g cw ch row col = true) :
    row + ch ≤ rows ∧ col + cw ≤ cols := by
  unfold fits at h
  split at h
  · exact absurd h (by simp)
  · omega

theorem fits_free {rows cols cw ch row col r c : ℕ} {g : Grid}
    (h : fits rows cols g cw ch row col = true)
    (hr1 : row ≤ r) (hr2 : r < row + ch) (hc1 : col ≤ c) (hc2 : c < col + cw) :
    g r c = false := by
  unfold fits at h
  split at h
  · exact absurd h (by simp)
  · have hrow := List.all_eq_true.mp h r (List.mem_range'_1.mpr ⟨hr1, hr2⟩)
    have hcell := List.all_eq_true.mp hrow c (List.mem_range'_1.mpr ⟨hc1, hc2⟩)
    simpa using hcell

theorem fits_intro {rows cols cw ch row col : ℕ} {g : Grid}
    (h1 : row + ch ≤ rows) (h2 : col + cw ≤ cols)
    (h3 : ∀ r c, row ≤ r → r < row + ch → col ≤ c → c < col + cw → g r c = false) :
    fits rows cols g cw ch row col = true := by
  unfold fits
  rw [if_neg (by omega)]
  refine List.all_eq_true.mpr fun r hr => List.all_eq_true.mpr fun c hc => ?_
  have hr' := List.mem_range'_1.mp hr
  have hc' := List.mem_range'_1.mp hc
  simpa using h3 r c hr'.1 hr'.2 hc'.1 hc'.2

/-- `fits` only becomes harder to satisfy as the grid fills up. -/
theorem fits_of_gridLE {rows cols cw ch row col : ℕ} {g g' : Grid}
    (hle : GridLE g g') (h : fits rows cols g' cw ch row col = true) :
    fits rows cols g cw ch row col = true := by
  obtain ⟨h1, h2⟩ := fits_bounds h
  refine fits_intro h1 h2 fun r c hr1 hr2 hc1 hc2 => ?_
  have hfree := fits_free h hr1 hr2 hc1 hc2
  cases hg : g r c
  · rfl
  · exact absurd (hle r c hg) (by simp [hfree])

/-- In a valid placement sequence, every cell claimed by any placement is
still free in the starting grid (occupancy only ever grows, so a cell free
at placement time was free all along). -/
theorem validSeq_cells_free {rows cols : ℕ} :
    ∀ {ps : List Placement} {g : Grid}, validSeq rows cols g ps = true →
      ∀ q ∈ ps, ∀ r c, InRect q r c → g r c = false
  | [], _, _, q, hq => by simp at hq
  | p :: ps, g, h, q, hq => by
    rw [validSeq, Bool.and_eq_true] at h
    intro r c hrc
    rcases List.mem_cons.mp hq with rfl | hq'
    · exact fits_free h.1 hrc.1 hrc.2.1 hrc.2.2.1 hrc.2.2.2
    · have hfree := validSeq_cells_free h.2 q hq' r c hrc
      cases hg : g r c
      · rfl
      · have := gridLE_occupy g p.cw p.ch p.row p.col r c hg
        simp [hfree] at this

/-- In a valid placement sequence the claimed cell rectangles are pairwise
disjoint. -/
theorem validSeq_pairwise_disjoint {rows cols : ℕ} :
    ∀ {ps : List Placement} {g : Grid}, validSeq rows cols g ps = true →
      List.Pairwise RectDisjoint ps
  | [], _, _ => List.Pairwise.nil
  | p :: ps, g, h => by
    rw [validSeq, Bool.and_eq_true] at h
    refine List.pairwise_cons.mpr ⟨fun q hq r c hp hq' => ?_,
      validSeq_pairwise_disjoint h.2⟩
    have hfree := validSeq_cells_free h.2 q hq r c hq'
    have hocc := occupy_of_inRect hp g
    simp [hocc] at hfree

/-- Every placement of a valid sequence lies fully inside the grid bounds. -/
theorem validSeq_bounds {rows cols : ℕ} :
    ∀ {ps : List Placement} {g : Grid}, validSeq rows cols g ps = true →
      ∀ p ∈ ps, p.row + p.ch ≤ rows ∧ p.col + p.cw ≤ cols
  | [], _, _, p, hp => by simp at hp
  | p :: ps, g, h, q, hq => by
    rw [validSeq, Bool.and_eq_true] at h
    rcases List.mem_cons.mp hq with rfl | hq'
    · exact fits_bounds h.1
    · exact validSeq_bounds h.2 q hq'

/-- Occupying placements never clears a cell: any cell occupied before a
(sub)run is still occupied after it. -/
theorem runGrid_monotone :
    ∀ (ps : List Placement) (g : Grid) (r c : ℕ),
      g r c = true → runGrid g ps r c = true
  | [], _, _, _, h => h
  | p :: ps, g, r, c, h =>
    runGrid_monotone ps _ r c (gridLE_occupy g p.cw p.ch p.row p.col r c h)

theorem find?_range'_some {p : ℕ → Bool} :
    ∀ {n a m : ℕ}, (List.range' a n).find? p = some m →
      a ≤ m ∧ m < a + n ∧ p m = true ∧ ∀ k, a ≤ k → k < m → p k = false := by
  intro n
  induction n with
  | zero => intro a m h; simp [List.range'] at h
  | succ n ih =>
    intro a m h
    rw [List.range'_succ] at h
    cases hpa : p a with
    | true =>
      rw [List.find?_cons_of_pos _ hpa] at h
      obtain rfl : a = m := by simpa using h
      exact ⟨le_refl a, by omega, hpa, fun k h1 h2 => by omega⟩
    | false =>
      rw [List.find?_cons_of_neg _ (by simp [hpa])] at h
      obtain ⟨h1, h2, h3, h4⟩ := ih h
      refine ⟨by omega, by omega, h3, fun k hk1 hk2 => ?_⟩
      rcases Nat.eq_or_lt_of_le hk1 with rfl | hk1'
      · exact hpa
      · exact h4 k hk1' hk2

theorem find?_range'_none {p : ℕ → Bool} {n a : ℕ}
    (h : (List.range' a n).find? p = none) :
    ∀ k, a ≤ k → k < a + n → p k = false := by
  intro k h1 h2
  have := List.find?_eq_none.mp h k (List.mem_range'_1.mpr ⟨h1, h2⟩)
  simpa using this

theorem findSome?_range'_some {β : Type} {f : ℕ → Option β} :
    ∀ {n a : ℕ} {b : β}, (List.range' a n).findSome? f = some b →
      ∃ m, a ≤ m ∧ m < a + n ∧ f m = some b ∧ ∀ k, a ≤ k → k < m → f k = none := by
  intro n
  induction n with
  | zero => intro a b h; simp [List.range'] at h
  | succ n ih =>
    intro a b h
    rw [List.range'_succ] at h
    cases hfa : f a with
    | some v =>
      rw [List.findSome?_cons, hfa] at h
      obtain rfl : v = b := by simpa using h
      exact ⟨a, le_refl a, by omega, hfa, fun k h1 h2 => by omega⟩
    | none =>
      rw [List.findSome?_cons, hfa] at h
      obtain ⟨m, h1, h2, h3, h4⟩ := ih h
      refine ⟨m, by omega, by omega, h3, fun k hk1 hk2 => ?_⟩
      rcases Nat.eq_or_lt_of_le hk1 with rfl | hk1'
      · exact hfa
      · exact h4 k hk1' hk2

/-- A successful row-major scan returns an in-range fitting anchor that is
lexicographically least among all in-range fitting anchors. -/
theorem findFirstFit_some {rows cols cw ch r c : ℕ} {g : Grid}
    (h : findFirstFit rows cols g cw ch = some (r, c)) :
    r < rows ∧ c < cols ∧ fits rows cols g cw ch r c = true ∧
      ∀ r' c', r' < rows → c' < cols → fits rows cols g cw ch r' c' = true →
        r < r' ∨ (r = r' ∧ c ≤ c') := by
  unfold findFirstFit at h
  simp only [List.range_eq_range'] at h
  obtain ⟨m, -, hm, hfm, hnone⟩ := findSome?_range'_some h
  obtain ⟨cm, hfind, hpair⟩ := Option.map_eq_some'.mp hfm
  obtain ⟨rfl, rfl⟩ : r = m ∧ c = cm := by
    simp only [Prod.ext_iff] at hpair
    exact ⟨hpair.1.symm, hpair.2.symm⟩
  obtain ⟨-, hc, hfit, hmin⟩ := find?_range'_some hfind
  refine ⟨by omega, by omega, hfit, fun r' c' hr' hc' hfit' => ?_⟩
  rcases Nat.lt_trichotomy r r' with hlt | heq | hgt
  · exact Or.inl hlt
  · refine Or.inr ⟨heq, ?_⟩
    subst heq
    by_contra hcc
    have := hmin c' (by omega) (by omega)
    simp [hfit'] at this
  · exfalso
    have := hnone r' (by omega) (by omega)
    rw [Option.map_eq_none'] at this
    have := find?_range'_none this c' (by omega) (by omega)
    simp [hfit'] at this

/-- A failed row-major scan means no in-range anchor fits. -/
theorem findFirstFit_none {rows cols cw ch : ℕ} {g : Grid}
    (h : findFirstFit rows cols g cw ch = none) :
    ∀ r c, r < rows → c < cols → fits rows cols g cw ch r c = false := by
  intro r c hr hc
  unfold findFirstFit at h
  have hrow := List.findSome?_eq_none_iff.mp h r (List.mem_range.mpr hr)
  rw [Option.map_eq_none'] at hrow
  rw [List.range_eq_range'] at hrow
  exact find?_range'_none hrow c (by omega) (by omega)

/-- `findFirstFit` never succeeds on a grid that dominates a grid where the
same shape already had no fit anywhere (cells never free up). -/
theorem findFirstFit_none_of_gridLE {rows cols cw ch : ℕ} {g g' : Grid}
    (hle : GridLE g g') (h : findFirstFit rows cols g cw ch = none) :
    findFirstFit rows cols g' cw ch = none := by
  cases hres : findFirstFit rows cols g' cw ch with
  | none => rfl
  | some rc =>
    exfalso
    obtain ⟨r, c⟩ := rc
    obtain ⟨hr, hc, hfit, -⟩ := findFirstFit_some hres
    have hg := fits_of_gridLE hle hfit
    have := findFirstFit_none h r c hr hc
    simp [hg] at this

namespace Chaos

theorem chunkLoop_valid (rows cols op ip cW cH n : ℕ) :
    ∀ (shapes : List (ℕ × ℕ)) (g : Grid) (idx : ℕ),
      validSeq rows cols g (placementsA (chunkLoop rows cols op ip cW cH n shapes g idx)) = true := by
  intro shapes
  induction shapes with
  | nil => intro g idx; simp [chunkLoop, placementsA, validSeq]
  | cons s rest ih =>
    intro g idx
    cases hf : findFirstFit rows cols g s.1 s.2 with
    | none => simpa [chunkLoop, hf, placementsA] using ih g idx
    | some rc =>
      obtain ⟨row, col⟩ := rc
      by_cases hn : n ≤ idx
      · simp [chunkLoop, hf, hn, placementsA, validSeq]
      · have hfit := (findFirstFit_some hf).2.2.1
        simpa [chunkLoop, hf, hn, placementsA, validSeq, hfit] using
          ih (occupy g s.1 s.2 row col) (idx + 1)

theorem chunkLoop_length_le (rows cols op ip cW cH n : ℕ) :
    ∀ (shapes : List (ℕ × ℕ)) (g : Grid) (idx : ℕ),
      (chunkLoop rows cols op ip cW cH n shapes g idx).length ≤ shapes.length := by
  intro shapes
  induction shapes with
  | nil => intro g idx; simp [chunkLoop]
  | cons s rest ih =>
    intro g idx
    cases hf : findFirstFit rows cols g s.1 s.2 with
    | none =>
      have := ih g idx
      simp only [chunkLoop, hf, List.length_cons]
      omega
    | some rc =>
      obtain ⟨row, col⟩ := rc
      by_cases hn : n ≤ idx
      · simp [chunkLoop, hf, hn]
      · have := ih (occupy g s.1 s.2 row col) (idx + 1)
        simp only [chunkLoop, hf, hn, if_false, List.length_cons]
        omega

theorem chunkLoop_imgIdx (rows cols op ip cW cH n : ℕ) :
    ∀ (shapes : List (ℕ × ℕ)) (g : Grid) (idx : ℕ),
      (placementsA (chunkLoop rows cols op ip cW cH n shapes g idx)).map Placement.imgIdx
        = List.range' idx (placementsA (chunkLoop rows cols op ip cW cH n shapes g idx)).length := by
  intro shapes
  induction shapes with
  | nil => intro g idx; simp [chunkLoop, placementsA]
  | cons s rest ih =>
    intro g idx
    cases hf : findFirstFit rows cols g s.1 s.2 with
    | none => simpa [chunkLoop, hf, placementsA] using ih g idx
    | some rc =>
      obtain ⟨row, col⟩ := rc
      by_cases hn : n ≤ idx
      · simp [chunkLoop, hf, hn, placementsA]
      · have := ih (occupy g s.1 s.2 row col) (idx + 1)
        simp only [chunkLoop, hf, hn, if_false, placementsA, List.filterMap_cons,
          List.map_cons, List.length_cons, List.range'_succ] at *
        simpa using this

theorem chunkLoop_imgIdx_lt (rows cols op ip cW cH n : ℕ) :
    ∀ (shapes : List (ℕ × ℕ)) (g : Grid) (idx : ℕ),
      ∀ p ∈ placementsA (chunkLoop rows cols op ip cW cH n shapes g idx), p.imgIdx < n := by
  intro shapes
  induction shapes with
  | nil => intro g idx p hp; simp [chunkLoop, placementsA] at hp
  | cons s rest ih =>
    intro g idx p hp
    cases hf : findFirstFit rows cols g s.1 s.2 with
    | none =>
      simp only [chunkLoop, hf, placementsA, List.filterMap_cons] at hp
      exact ih g idx p hp
    | some rc =>
      obtain ⟨row, col⟩ := rc
      by_cases hn : n ≤ idx
      · simp [chunkLoop, hf, hn, placementsA] at hp
      · simp only [chunkLoop, hf, hn, if_false, placementsA, List.filterMap_cons] at hp
        rcases List.mem_cons.mp hp with rfl | hp'
        · simpa using hn
        · exact ih (occupy g s.1 s.2 row col) (idx + 1) p hp'

theorem chunkLoop_exhausted (rows cols op ip cW cH n : ℕ) :
    ∀ (shapes : List (ℕ × ℕ)) (g : Grid) (idx : ℕ), n ≤ idx →
      placementsA (chunkLoop rows cols op ip cW cH n shapes g idx) = [] := by
  intro shapes
  induction shapes with
  | nil => intro g idx _; simp [chunkLoop, placementsA]
  | cons s rest ih =>
    intro g idx hn
    cases hf : findFirstFit rows cols g s.1 s.2 with
    | none =>
      simp only [chunkLoop, hf, placementsA, List.filterMap_cons]
      exact ih g idx hn
    | some rc =>
      obtain ⟨row, col⟩ := rc
      simp [chunkLoop, hf, hn, placementsA]

theorem chunkLoop_none_stays (rows cols op ip cW cH n cw ch : ℕ) :
    ∀ (shapes : List (ℕ × ℕ)) (g g' : Grid) (idx : ℕ), GridLE g g' →
      findFirstFit rows cols g cw ch = none →
      ∀ a ∈ chunkLoop rows cols op ip cW cH n shapes g' idx,
        a.cw = cw → a.ch = ch → a.res = none := by
  intro shapes
  induction shapes with
  | nil => intro g g' idx _ _ a ha; simp [chunkLoop] at ha
  | cons s rest ih =>
    intro g g' idx hle hnone a ha hacw hach
    cases hf : findFirstFit rows cols g' s.1 s.2 with
    | none =>
      simp only [chunkLoop, hf] at ha
      rcases List.mem_cons.mp ha with rfl | ha'
      · rfl
      · exact ih g g' idx hle hnone a ha' hacw hach
    | some rc =>
      obtain ⟨row, col⟩ := rc
      by_cases hn : n ≤ idx
      · simp [chunkLoop, hf, hn] at ha
      · simp only [chunkLoop, hf, hn, if_false] at ha
        rcases List.mem_cons.mp ha with rfl | ha'
        · exfalso
          simp only at hacw hach
          rw [hacw, hach] at hf
          exact absurd (findFirstFit_none_of_gridLE hle hnone) (by simp [hf])
        · exact ih g (occupy g' s.1 s.2 row col) (idx + 1)
            (gridLE_trans hle (gridLE_occupy g' s.1 s.2 row col)) hnone a ha' hacw hach

/-- Along any Mode A attempt trace, an attempt of a shape that previously
failed to place still fails: the grid only fills up, so a full-scan failure
is permanent. -/
theorem chunkLoop_no_retry (rows cols op ip cW cH n : ℕ) :
    ∀ (shapes : List (ℕ × ℕ)) (g : Grid) (idx : ℕ),
      List.Pairwise (fun a b => a.res = none → b.cw = a.cw → b.ch = a.ch → b.res = none)
        (chunkLoop rows cols op ip cW cH n shapes g idx) := by
  intro shapes
  induction shapes with
  | nil => intro g idx; simp [chunkLoop]
  | cons s rest ih =>
    intro g idx
    cases hf : findFirstFit rows cols g s.1 s.2 with
    | none =>
      simp only [chunkLoop, hf]
      refine List.pairwise_cons.mpr ⟨fun b hb hres hbcw hbch => ?_, ih g idx⟩
      exact chunkLoop_none_stays rows cols op ip cW cH n s.1 s.2 rest g g idx
        (gridLE_refl g) hf b hb hbcw hbch
    | some rc =>
      obtain ⟨row, col⟩ := rc
      by_cases hn : n ≤ idx
      · simp [chunkLoop, hf, hn]
      · simp only [chunkLoop, hf, hn, if_false]
        refine List.pairwise_cons.mpr ⟨fun b hb hres => ?_, ih (occupy g s.1 s.2 row col) (idx + 1)⟩
        exact absurd hres (by simp)

theorem chunkLoop_pixel (rows cols op ip cW cH n : ℕ) :
    ∀ (shapes : List (ℕ × ℕ)) (g : Grid) (idx : ℕ),
      ∀ p ∈ placementsA (chunkLoop rows cols op ip cW cH n shapes g idx),
        p.px = op + p.col * (cW + ip) ∧ p.py = op + p.row * (cH + ip) ∧
          p.pw = p.cw * cW + (p.cw - 1) * ip ∧ p.ph = p.ch * cH + (p.ch - 1) * ip := by
  intro shapes
  induction shapes with
  | nil => intro g idx p hp; simp [chunkLoop, placementsA] at hp
  | cons s rest ih =>
    intro g idx p hp
    cases hf : findFirstFit rows cols g s.1 s.2 with
    | none =>
      simp only [chunkLoop, hf, placementsA, List.filterMap_cons] at hp
      exact ih g idx p hp
    | some rc =>
      obtain ⟨row, col⟩ := rc
      by_cases hn : n ≤ idx
      · simp [chunkLoop, hf, hn, placementsA] at hp
      · simp only [chunkLoop, hf, hn, if_false, placementsA, List.filterMap_cons] at hp
        rcases List.mem_cons.mp hp with rfl | hp'
        · exact ⟨rfl, rfl, rfl, rfl⟩
        · exact ih (occupy g s.1 s.2 row col) (idx + 1) p hp'

set_option maxRecDepth 4000 in
theorem create_chunk_grid_layout_budget (n sw sh : ℕ) :
    (create_chunk_grid_layout n sw sh).length ≤ CHUNKS.length * 100 := by
  have h := chunkLoop_length_le GRID_ROWS GRID_COLS OUTER_PADDING INNER_PADDING
    (cell_size sw GRID_COLS OUTER_PADDING INNER_PADDING)
    (cell_size sh GRID_ROWS OUTER_PADDING INNER_PADDING) n
    (List.flatten (List.replicate 100 CHUNKS)) emptyGrid 0
  have hlen : (List.flatten (List.replicate 100 CHUNKS)).length = 800 := by rfl
  have hcat : CHUNKS.length * 100 = 800 := by rfl
  rw [create_chunk_grid_layout]
  omega

end Chaos

theorem insertDesc_perm {α : Type} (lt : α → α → Bool) (x : α) :
    ∀ l : List α, (insertDesc lt x l).Perm (x :: l)
  | [] => List.Perm.refl _
  | y :: ys => by
    unfold insertDesc
    split
    · exact List.Perm.refl _
    · exact ((insertDesc_perm lt x ys).cons y).trans (List.Perm.swap x y ys)

theorem sortDesc_perm {α : Type} (lt : α → α → Bool) :
    ∀ l : List α, (sortDesc lt l).Perm l
  | [] => List.Perm.refl _
  | x :: xs =>
    (insertDesc_perm lt x (sortDesc lt xs)).trans ((sortDesc_perm lt xs).cons x)

namespace Zen3

theorem mem_candidatePositions {rows cols cw ch : ℕ} {g : Grid} {ts : ℤ} {tr tc : ℕ} :
    (ts, tr, tc) ∈ candidatePositions rows cols g cw ch ↔
      tr < rows ∧ tc < cols ∧ fits rows cols g cw ch tr tc = true ∧
        ts = score20 rows cols g cw ch tr tc := by
  unfold candidatePositions
  rw [List.mem_flatMap]
  constructor
  · rintro ⟨row, hrow, ht⟩
    rw [List.mem_filterMap] at ht
    obtain ⟨col, hcol, hif⟩ := ht
    rw [List.mem_range] at hrow hcol
    split at hif
    · rename_i hfit
      obtain ⟨h5, h6, h7⟩ : score20 rows cols g cw ch row col = ts ∧ row = tr ∧ col = tc := by
        simpa [Prod.ext_iff] using hif
      subst h6; subst h7
      exact ⟨hrow, hcol, hfit, h5.symm⟩
    · exact absurd hif (by simp)
  · rintro ⟨h1, h2, h3, rfl⟩
    exact ⟨tr, List.mem_range.mpr h1,
      List.mem_filterMap.mpr ⟨tc, List.mem_range.mpr h2, by rw [if_pos h3]⟩⟩

theorem candidatePositions_eq_nil {rows cols cw ch : ℕ} {g : Grid} :
    candidatePositions rows cols g cw ch = [] ↔
      ∀ r c, r < rows → c < cols → fits rows cols g cw ch r c = false := by
  rw [List.eq_nil_iff_forall_not_mem]
  constructor
  · intro h r c hr hc
    cases hfit : fits rows cols g cw ch r c
    · rfl
    · exact absurd (mem_candidatePositions.mpr ⟨hr, hc, hfit, rfl⟩) (h _)
  · intro h t ht
    obtain ⟨ts, tr, tc⟩ := t
    obtain ⟨h1, h2, h3, -⟩ := mem_candidatePositions.mp ht
    exact absurd h3 (by simp [h tr tc h1 h2])

theorem find_best_position_some {rows cols cw ch pick r c : ℕ} {g : Grid}
    (h : find_best_position rows cols g cw ch pick = some (r, c)) :
    r < rows ∧ c < cols ∧ fits rows cols g cw ch r c = true := by
  simp only [find_best_position] at h
  split at h
  · exact absurd h (by simp)
  · obtain ⟨t, hget, hpair⟩ := Option.map_eq_some'.mp h
    have ht : t ∈ candidatePositions rows cols g cw ch := by
      have h1 := List.get?_mem hget
      have h2 := List.take_subset _ _ h1
      exact ((sortDesc_perm posLt _).mem_iff).mp h2
    obtain ⟨ts, tr, tc⟩ := t
    obtain ⟨h1, h2, h3, -⟩ := mem_candidatePositions.mp ht
    obtain ⟨rfl, rfl⟩ : r = tr ∧ c = tc := by
      simp only [Prod.ext_iff] at hpair
      exact ⟨hpair.1.symm, hpair.2.symm⟩
    exact ⟨h1, h2, h3⟩

theorem find_best_position_none {rows cols cw ch pick : ℕ} {g : Grid} :
    find_best_position rows cols g cw ch pick = none ↔
      has_placement rows cols g cw ch = false := by
  simp only [find_best_position, has_placement]
  cases he : (candidatePositions rows cols g cw ch).isEmpty with
  | true => simp
  | false =>
    constructor
    · intro h
      exfalso
      rw [if_neg (by simp)] at h
      rw [Option.map_eq_none'] at h
      have hne : candidatePositions rows cols g cw ch ≠ [] := by
        intro hnil
        rw [hnil] at he
        simp at he
      have hlen : 0 < (candidatePositions rows cols g cw ch).length :=
        List.length_pos.mpr hne
      have hslen : (sortDesc posLt (candidatePositions rows cols g cw ch)).length
          = (candidatePositions rows cols g cw ch).length :=
        (sortDesc_perm posLt _).length_eq
      have htop : 0 < ((sortDesc posLt (candidatePositions rows cols g cw ch)).take
          (min 5 (sortDesc posLt (candidatePositions rows cols g cw ch)).length)).length := by
        rw [List.length_take]
        omega
      have hmod := Nat.mod_lt pick htop
      have := List.get?_eq_none.mp h
      omega
    · intro h
      simp at h

theorem find_best_position_of_has {rows cols cw ch pick : ℕ} {g : Grid}
    (h : has_placement rows cols g cw ch = true) :
    ∃ r c, find_best_position rows cols g cw ch pick = some (r, c) ∧
      fits rows cols g cw ch r c = true := by
  cases hres : find_best_position rows cols g cw ch pick with
  | none =>
    rw [find_best_position_none] at hres
    simp [h] at hres
  | some rc =>
    obtain ⟨r, c⟩ := rc
    obtain ⟨-, -, hfit⟩ := find_best_position_some hres
    exact ⟨r, c, rfl, hfit⟩

theorem has_placement_iff {rows cols cw ch : ℕ} {g : Grid} :
    has_placement rows cols g cw ch = true ↔
      ∃ r c, r < rows ∧ c < cols ∧ fits rows cols g cw ch r c = true := by
  unfold has_placement
  constructor
  · intro h
    by_contra hex
    push_neg at hex
    have hall : ∀ r c, r < rows → c < cols → fits rows cols g cw ch r c = false := by
      intro r c hr hc
      cases hfit : fits rows cols g cw ch r c
      · rfl
      · exact absurd hfit (hex r c hr hc)
    rw [← candidatePositions_eq_nil] at hall
    rw [hall] at h
    simp at h
  · intro ⟨r, c, hr, hc, hfit⟩
    cases he : (candidatePositions rows cols g cw ch).isEmpty with
    | false => simp [he]
    | true =>
      exfalso
      rw [List.isEmpty_iff, candidatePositions_eq_nil] at he
      exact absurd hfit (by simp [he r c hr hc])

theorem tryWithFallback_some_fits {rows cols cw ch : ℕ} {g : Grid} {picks : ℕ → ℕ}
    {s : ℕ × ℕ} {r c : ℕ}
    (h : tryWithFallback rows cols g cw ch picks = some (s, r, c)) :
    fits rows cols g s.1 s.2 r c = true := by
  unfold tryWithFallback at h
  cases h0 : find_best_position rows cols g cw ch (picks 0) with
  | some rc0 =>
    rw [h0] at h
    obtain ⟨r0, c0⟩ := rc0
    obtain ⟨hs, hr, hc⟩ : (cw, ch) = s ∧ r0 = r ∧ c0 = c := by
      simpa [Prod.ext_iff] using h
    subst hs; subst hr; subst hc
    exact (find_best_position_some h0).2.2
  | none =>
    rw [h0] at h
    cases h1 : find_best_position rows cols g 2 1 (picks 1) with
    | some rc1 =>
      rw [h1] at h
      obtain ⟨r1, c1⟩ := rc1
      obtain ⟨hs, hr, hc⟩ : ((2 : ℕ), (1 : ℕ)) = s ∧ r1 = r ∧ c1 = c := by
        simpa [Prod.ext_iff] using h
      subst hr; subst hc
      rw [← hs]
      exact (find_best_position_some h1).2.2
    | none =>
      rw [h1] at h
      cases h2 : find_best_position rows cols g 1 2 (picks 2) with
      | some rc2 =>
        rw [h2] at h
        obtain ⟨r2, c2⟩ := rc2
        obtain ⟨hs, hr, hc⟩ : ((1 : ℕ), (2 : ℕ)) = s ∧ r2 = r ∧ c2 = c := by
          simpa [Prod.ext_iff] using h
        subst hr; subst hc
        rw [← hs]
        exact (find_best_position_some h2).2.2
      | none =>
        rw [h2] at h
        cases h3 : find_best_position rows cols g 1 1 (picks 3) with
        | some rc3 =>
          rw [h3] at h
          obtain ⟨r3, c3⟩ := rc3
          obtain ⟨hs, hr, hc⟩ : ((1 : ℕ), (1 : ℕ)) = s ∧ r3 = r ∧ c3 = c := by
            simpa [Prod.ext_iff] using h
          subst hr; subst hc
          rw [← hs]
          exact (find_best_position_some h3).2.2
        | none =>
          rw [h3] at h
          exact absurd h (by simp)


theorem freeflowLoop_length_le (rows cols op ip cW cH n : ℕ) (us : ℕ → ℕ) (picks : ℕ → ℕ → ℕ) :
    ∀ (fuel : ℕ) (g : Grid) (idx att : ℕ),
      (freeflowLoop rows cols op ip cW cH n us picks fuel g idx att).length ≤ fuel := by
  intro fuel
  induction fuel with
  | zero => intro g idx att; simp [freeflowLoop]
  | succ fuel ih =>
    intro g idx att
    by_cases hn : n ≤ idx
    · simp [freeflowLoop, hn]
    · cases ht : tryWithFallback rows cols g (get_random_chunk (us att)).1
          (get_random_chunk (us att)).2 (picks att) with
      | none =>
        have := ih g idx (att + 1)
        simp only [freeflowLoop, hn, if_false, ht, List.length_cons]
        omega
      | some src =>
        obtain ⟨s, row, col⟩ := src
        have := ih (occupy g s.1 s.2 row col) (idx + 1) (att + 1)
        simp only [freeflowLoop, hn, if_false, ht, List.length_cons]
        omega

theorem freeflowLoop_valid (rows cols op ip cW cH n : ℕ) (us : ℕ → ℕ) (picks : ℕ → ℕ → ℕ) :
    ∀ (fuel : ℕ) (g : Grid) (idx att : ℕ),
      validSeq rows cols g
        (placementsB (freeflowLoop rows cols op ip cW cH n us picks fuel g idx att)) = true := by
  intro fuel
  induction fuel with
  | zero => intro g idx att; simp [freeflowLoop, placementsB, validSeq]
  | succ fuel ih =>
    intro g idx att
    by_cases hn : n ≤ idx
    · simp [freeflowLoop, hn, placementsB, validSeq]
    · cases ht : tryWithFallback rows cols g (get_random_chunk (us att)).1
          (get_random_chunk (us att)).2 (picks att) with
      | none =>
        simpa [freeflowLoop, hn, ht, placementsB] using ih g idx (att + 1)
      | some src =>
        obtain ⟨s, row, col⟩ := src
        have hfit := tryWithFallback_some_fits ht
        simpa [freeflowLoop, hn, ht, placementsB, validSeq, hfit] using
          ih (occupy g s.1 s.2 row col) (idx + 1) (att + 1)

theorem freeflowLoop_imgIdx (rows cols op ip cW cH n : ℕ) (us : ℕ → ℕ) (picks : ℕ → ℕ → ℕ) :
    ∀ (fuel : ℕ) (g : Grid) (idx att : ℕ),
      (placementsB (freeflowLoop rows cols op ip cW cH n us picks fuel g idx att)).map
          Placement.imgIdx
        = List.range' idx
            (placementsB (freeflowLoop rows cols op ip cW cH n us picks fuel g idx att)).length := by
  intro fuel
  induction fuel with
  | zero => intro g idx att; simp [freeflowLoop, placementsB]
  | succ fuel ih =>
    intro g idx att
    by_cases hn : n ≤ idx
    · simp [freeflowLoop, hn, placementsB]
    · cases ht : tryWithFallback rows cols g (get_random_chunk (us att)).1
          (get_random_chunk (us att)).2 (picks att) with
      | none =>
        simpa [freeflowLoop, hn, ht, placementsB] using ih g idx (att + 1)
      | some src =>
        obtain ⟨s, row, col⟩ := src
        have := ih (occupy g s.1 s.2 row col) (idx + 1) (att + 1)
        simp only [freeflowLoop, hn, if_false, ht, placementsB, List.filterMap_cons,
          List.map_cons, List.length_cons, List.range'_succ] at *
        simpa using this

theorem freeflowLoop_imgIdx_lt (rows cols op ip cW cH n : ℕ) (us : ℕ → ℕ) (picks : ℕ → ℕ → ℕ) :
    ∀ (fuel : ℕ) (g : Grid) (idx att : ℕ),
      ∀ p ∈ placementsB (freeflowLoop rows cols op ip cW cH n us picks fuel g idx att),
        p.imgIdx < n := by
  intro fuel
  induction fuel with
  | zero => intro g idx att p hp; simp [freeflowLoop, placementsB] at hp
  | succ fuel ih =>
    intro g idx att p hp
    by_cases hn : n ≤ idx
    · simp [freeflowLoop, hn, placementsB] at hp
    · cases ht : tryWithFallback rows cols g (get_random_chunk (us att)).1
          (get_random_chunk (us att)).2 (picks att) with
      | none =>
        simp only [freeflowLoop, hn, if_false, ht, placementsB, List.filterMap_cons] at hp
        exact ih g idx (att + 1) p hp
      | some src =>
        obtain ⟨s, row, col⟩ := src
        simp only [freeflowLoop, hn, if_false, ht, placementsB, List.filterMap_cons] at hp
        rcases List.mem_cons.mp hp with rfl | hp'
        · simpa using hn
        · exact ih (occupy g s.1 s.2 row col) (idx + 1) (att + 1) p hp'

theorem freeflowLoop_pixel (rows cols op ip cW cH n : ℕ) (us : ℕ → ℕ) (picks : ℕ → ℕ → ℕ) :
    ∀ (fuel : ℕ) (g : Grid) (idx att : ℕ),
      ∀ p ∈ placementsB (freeflowLoop rows cols op ip cW cH n us picks fuel g idx att),
        p.px = op + p.col * (cW + ip) ∧ p.py = op + p.row * (cH + ip) ∧
          p.pw = p.cw * cW + (p.cw - 1) * ip ∧ p.ph = p.ch * cH + (p.ch - 1) * ip := by
  intro fuel
  induction fuel with
  | zero => intro g idx att p hp; simp [freeflowLoop, placementsB] at hp
  | succ fuel ih =>
    intro g idx att p hp
    by_cases hn : n ≤ idx
    · simp [freeflowLoop, hn, placementsB] at hp
    · cases ht : tryWithFallback rows cols g (get_random_chunk (us att)).1
          (get_random_chunk (us att)).2 (picks att) with
      | none =>
        simp only [freeflowLoop, hn, if_false, ht, placementsB, List.filterMap_cons] at hp
        exact ih g idx (att + 1) p hp
      | some src =>
        obtain ⟨s, row, col⟩ := src
        simp only [freeflowLoop, hn, if_false, ht, placementsB, List.filterMap_cons] at hp
        rcases List.mem_cons.mp hp with rfl | hp'
        · exact ⟨rfl, rfl, rfl, rfl⟩
        · exact ih (occupy g s.1 s.2 row col) (idx + 1) (att + 1) p hp'

/-- An iteration whose drawn shape and all fallback shapes have no position
is skipped: same grid, same image index, the loop merely moves to the next
attempt. -/
theorem freeflowLoop_skip (rows cols op ip cW cH n : ℕ) (us : ℕ → ℕ) (picks : ℕ → ℕ → ℕ)
    (fuel : ℕ) (g : Grid) (idx att : ℕ) (hidx : idx < n)
    (h : tryWithFallback rows cols g (get_random_chunk (us att)).1
      (get_random_chunk (us att)).2 (picks att) = none) :
    freeflowLoop rows cols op ip cW cH n us picks (fuel + 1) g idx att
      = ⟨(get_random_chunk (us att)).1, (get_random_chunk (us att)).2, none⟩ ::
        freeflowLoop rows cols op ip cW cH n us picks fuel g idx (att + 1) := by
  have hn : ¬ n ≤ idx := by omega
  simp only [freeflowLoop, hn, if_false, h]

end Zen3

/-! ### Image fitter arithmetic -/

/-- Floor division by two decomposes its argument with remainder 0 or 1. -/
theorem fdiv_two_decomp (a : ℤ) :
    ∃ r, 0 ≤ r ∧ r < 2 ∧ a = 2 * Int.fdiv a 2 + r := by
  refine ⟨a.fmod 2, ?_, Int.fmod_lt_of_pos a (by norm_num), ?_⟩
  · rw [Int.fmod_eq_emod a (by norm_num)]
    exact Int.emod_nonneg a (by norm_num)
  · have := Int.fmod_add_fdiv a 2
    omega

/-- When the image is relatively wider than the chunk, scaling to the chunk
height makes the scaled width at least the chunk width. -/
theorem floor_scale_wide {imgW imgH : ℕ} {w h : ℤ}
    (hh : 0 < h)
    (hlt : (w : ℚ) / (h : ℚ) < (imgW : ℚ) / (imgH : ℚ)) :
    w ≤ ⌊(h : ℚ) * ((imgW : ℚ) / (imgH : ℚ))⌋ := by
  rw [Int.le_floor]
  have hhq : (0 : ℚ) < (h : ℚ) := by exact_mod_cast hh
  have hstep : ((w : ℚ) / (h : ℚ)) * (h : ℚ) < ((imgW : ℚ) / (imgH : ℚ)) * (h : ℚ) :=
    mul_lt_mul_of_pos_right hlt hhq
  rw [div_mul_cancel₀ _ (ne_of_gt hhq)] at hstep
  rw [mul_comm]
  exact le_of_lt hstep

/-- When the image is relatively taller than (or as tall as) the chunk,
scaling to the chunk width makes the scaled height at least the chunk
height. -/
theorem floor_scale_tall {imgW imgH : ℕ} {w h : ℤ}
    (hiw : 0 < imgW) (hih : 0 < imgH) (hh : 0 < h)
    (hle : (imgW : ℚ) / (imgH : ℚ) ≤ (w : ℚ) / (h : ℚ)) :
    h ≤ ⌊(w : ℚ) / ((imgW : ℚ) / (imgH : ℚ))⌋ := by
  rw [Int.le_floor]
  have hhq : (0 : ℚ) < (h : ℚ) := by exact_mod_cast hh
  have haq : (0 : ℚ) < (imgW : ℚ) / (imgH : ℚ) := by
    apply div_pos <;> [exact_mod_cast hiw; exact_mod_cast hih]
  rw [le_div_iff haq]
  calc (h : ℚ) * ((imgW : ℚ) / (imgH : ℚ))
      ≤ (h : ℚ) * ((w : ℚ) / (h : ℚ)) := by
        exact mul_le_mul_of_nonneg_left hle (le_of_lt hhq)
    _ = (w : ℚ) := by
        rw [mul_div_assoc']
        rw [mul_comm]
        rw [mul_div_assoc]
        rw [div_self (ne_of_gt hhq)]
        ring

/-! ### Fisher-Yates shuffle permutes -/

theorem set_cons_perm {α : Type} :
    ∀ {t : List α} {k : ℕ} {b : α}, t.get? k = some b →
      ∀ a, (b :: t.set k a).Perm (a :: t)
  | [], k, b, h, a => by simp at h
  | y :: t', 0, b, h, a => by
    obtain rfl : y = b := by simpa using h
    simpa using List.Perm.swap a y t'
  | y :: t', k + 1, b, h, a => by
    have h' : t'.get? k = some b := by simpa using h
    have hstep : (y :: t').set (k + 1) a = y :: t'.set k a := by simp
    rw [hstep]
    exact ((List.Perm.swap y b (t'.set k a)).trans
      ((set_cons_perm h' a).cons y)).trans (List.Perm.swap a y t')

theorem set_set_perm {α : Type} :
    ∀ {l : List α} {i j : ℕ} {a b : α}, l.get? i = some a → l.get? j = some b →
      ((l.set i b).set j a).Perm l
  | [], _, _, _, _, hi, _ => by simp at hi
  | x :: t, 0, 0, a, b, hi, hj => by
    obtain rfl : x = a := by simpa using hi
    simp
  | x :: t, 0, j + 1, a, b, hi, hj => by
    obtain rfl : x = a := by simpa using hi
    have hj' : t.get? j = some b := by simpa using hj
    simpa using set_cons_perm hj' x
  | x :: t, i + 1, 0, a, b, hi, hj => by
    obtain rfl : x = b := by simpa using hj
    have hi' : t.get? i = some a := by simpa using hi
    simpa using set_cons_perm hi' x
  | x :: t, i + 1, j + 1, a, b, hi, hj => by
    have hi' : t.get? i = some a := by simpa using hi
    have hj' : t.get? j = some b := by simpa using hj
    simpa using (set_set_perm hi' hj').cons x

theorem swapAt_perm {α : Type} (l : List α) (i j : ℕ) : (swapAt l i j).Perm l := by
  unfold swapAt
  cases hi : l.get? i with
  | none => exact List.Perm.refl l
  | some a =>
    cases hj : l.get? j with
    | none => exact List.Perm.refl l
    | some b => exact set_set_perm hi hj

theorem foldl_swapAt_perm {α : Type} (d : ℕ → ℕ) :
    ∀ (steps : List ℕ) (l : List α),
      (steps.foldl (fun acc i => swapAt acc i (d i % (i + 1))) l).Perm l
  | [], l => List.Perm.refl l
  | i :: steps, l =>
    (foldl_swapAt_perm d steps (swapAt l i (d i % (i + 1)))).trans
      (swapAt_perm l i (d i % (i + 1)))

/-- `random.shuffle` produces a permutation of the list, whatever the random
draws are. -/
theorem pyShuffle_perm {α : Type} (draws : ℕ → ℕ) (l : List α) :
    (pyShuffle draws l).Perm l :=
  foldl_swapAt_perm draws _ l

/-- Branch structure of `fit_without_crop` made explicit. -/
theorem fit_without_crop_eq (imgW imgH : ℕ) (x y w h : ℤ) :
    fit_without_crop imgW imgH x y w h =
      if (w : ℚ) / (h : ℚ) < (imgW : ℚ) / (imgH : ℚ) then
        ⟨⌊(h : ℚ) * ((imgW : ℚ) / (imgH : ℚ))⌋, h,
          x + Int.fdiv (w - ⌊(h : ℚ) * ((imgW : ℚ) / (imgH : ℚ))⌋) 2,
          y + Int.fdiv (h - h) 2⟩
      else
        ⟨w, ⌊(w : ℚ) / ((imgW : ℚ) / (imgH : ℚ))⌋, x + Int.fdiv (w - w) 2,
          y + Int.fdiv (h - ⌊(w : ℚ) / ((imgW : ℚ) / (imgH : ℚ))⌋) 2⟩ := by
  unfold fit_without_crop
  by_cases hc : (w : ℚ) / (h : ℚ) < (imgW : ℚ) / (imgH : ℚ) <;> simp [hc]

/-- The fit-without-crop scaled size covers the target: exact on one axis,
at least as large on the other. -/
theorem fit_without_crop_covers (imgW imgH : ℕ) (x y w h : ℤ)
    (hiw : 0 < imgW) (hih : 0 < imgH) (hw : 0 < w) (hh : 0 < h) :
    ((fit_without_crop imgW imgH x y w h).new_height = h ∧
        w ≤ (fit_without_crop imgW imgH x y w h).new_width) ∨
      ((fit_without_crop imgW imgH x y w h).new_width = w ∧
        h ≤ (fit_without_crop imgW imgH x y w h).new_height) := by
  rw [fit_without_crop_eq]
  by_cases hc : (w : ℚ) / (h : ℚ) < (imgW : ℚ) / (imgH : ℚ)
  · rw [if_pos hc]
    dsimp only
    exact Or.inl ⟨rfl, floor_scale_wide hh hc⟩
  · rw [if_neg hc]
    dsimp only
    exact Or.inr ⟨rfl, floor_scale_tall hiw hih hh (le_of_not_lt hc)⟩

/-- The fit-without-crop paste is centered: the overflow beyond the target
rectangle splits between the two sides of each axis with difference at most
one pixel, and neither side has negative overflow. -/
theorem fit_without_crop_centered (imgW imgH : ℕ) (x y w h : ℤ)
    (hiw : 0 < imgW) (hih : 0 < imgH) (hw : 0 < w) (hh : 0 < h) :
    ((x - (fit_without_crop imgW imgH x y w h).offset_x) +
        ((fit_without_crop imgW imgH x y w h).offset_x +
          (fit_without_crop imgW imgH x y w h).new_width - (x + w))
      = (fit_without_crop imgW imgH x y w h).new_width - w ∧
      0 ≤ x - (fit_without_crop imgW imgH x y w h).offset_x ∧
      0 ≤ (fit_without_crop imgW imgH x y w h).offset_x +
        (fit_without_crop imgW imgH x y w h).new_width - (x + w) ∧
      0 ≤ (x - (fit_without_crop imgW imgH x y w h).offset_x) -
        ((fit_without_crop imgW imgH x y w h).offset_x +
          (fit_without_crop imgW imgH x y w h).new_width - (x + w)) ∧
      (x - (fit_without_crop imgW imgH x y w h).offset_x) -
        ((fit_without_crop imgW imgH x y w h).offset_x +
          (fit_without_crop imgW imgH x y w h).new_width - (x + w)) ≤ 1) ∧
    ((y - (fit_without_crop imgW imgH x y w h).offset_y) +
        ((fit_without_crop imgW imgH x y w h).offset_y +
          (fit_without_crop imgW imgH x y w h).new_height - (y + h))
      = (fit_without_crop imgW imgH x y w h).new_height - h ∧
      0 ≤ y - (fit_without_crop imgW imgH x y w h).offset_y ∧
      0 ≤ (fit_without_crop imgW imgH x y w h).offset_y +
        (fit_without_crop imgW imgH x y w h).new_height - (y + h) ∧
      0 ≤ (y - (fit_without_crop imgW imgH x y w h).offset_y) -
        ((fit_without_crop imgW imgH x y w h).offset_y +
          (fit_without_crop imgW imgH x y w h).new_height - (y + h)) ∧
      (y - (fit_without_crop imgW imgH x y w h).offset_y) -
        ((fit_without_crop imgW imgH x y w h).offset_y +
          (fit_without_crop imgW imgH x y w h).new_height - (y + h)) ≤ 1) := by
  rw [fit_without_crop_eq]
  by_cases hc : (w : ℚ) / (h : ℚ) < (imgW : ℚ) / (imgH : ℚ)
  · rw [if_pos hc]
    have hnw := floor_scale_wide hh hc
    dsimp only
    obtain ⟨r1, hr1a, hr1b, hr1c⟩ :=
      fdiv_two_decomp (w - ⌊(h : ℚ) * ((imgW : ℚ) / (imgH : ℚ))⌋)
    obtain ⟨r2, hr2a, hr2b, hr2c⟩ := fdiv_two_decomp (h - h)
    constructor <;> constructor <;> omega
  · rw [if_neg hc]
    have hnh := floor_scale_tall hiw hih hh (le_of_not_lt hc)
    dsimp only
    obtain ⟨r1, hr1a, hr1b, hr1c⟩ := fdiv_two_decomp (w - w)
    obtain ⟨r2, hr2a, hr2b, hr2c⟩ :=
      fdiv_two_decomp (h - ⌊(w : ℚ) / ((imgW : ℚ) / (imgH : ℚ))⌋)
    constructor <;> constructor <;> omega


/-- The fit-with-crop composited region is exactly the target rectangle:
target dimensions, pasted at the rectangle origin (so no pasted pixel lies
outside the target rectangle). -/
theorem fit_with_crop_paste_exact (imgW imgH : ℕ) (x y w h : ℤ)
    (hiw : 0 < imgW) (hih : 0 < imgH) (hw : 0 < w) (hh : 0 < h) :
    (fit_with_crop imgW imgH x y w h).paste_w = w ∧
      (fit_with_crop imgW imgH x y w h).paste_h = h ∧
      (fit_with_crop imgW imgH x y w h).paste_x = x ∧
      (fit_with_crop imgW imgH x y w h).paste_y = y := by
  unfold fit_with_crop
  by_cases hc : (w : ℚ) / (h : ℚ) < (imgW : ℚ) / (imgH : ℚ)
  · have hnw := floor_scale_wide hh hc
    simp only [if_pos hc]
    by_cases hcrop : w < ⌊(h : ℚ) * ((imgW : ℚ) / (imgH : ℚ))⌋ ∨ h < h
    · rw [if_pos hcrop]
      exact ⟨rfl, rfl, rfl, rfl⟩
    · rw [if_neg hcrop]
      have heq : ⌊(h : ℚ) * ((imgW : ℚ) / (imgH : ℚ))⌋ = w := by omega
      dsimp only
      rw [heq]
      rw [sub_self, Int.zero_fdiv, sub_zero]
      exact ⟨rfl, rfl, rfl, rfl⟩
  · have hnh := floor_scale_tall hiw hih hh (le_of_not_lt hc)
    simp only [if_neg hc]
    by_cases hcrop : w < w ∨ h < ⌊(w : ℚ) / ((imgW : ℚ) / (imgH : ℚ))⌋
    · rw [if_pos hcrop]
      exact ⟨rfl, rfl, rfl, rfl⟩
    · rw [if_neg hcrop]
      have heq : ⌊(w : ℚ) / ((imgW : ℚ) / (imgH : ℚ))⌋ = h := by omega
      dsimp only
      rw [heq]
      rw [sub_self, Int.zero_fdiv, sub_zero]
      exact ⟨rfl, rfl, rfl, rfl⟩

/-- Scenario: a 2:1 image fitted into a square target.  The resized image is
twice as wide as the target; the crop removes `⌊h/2⌋` pixels on the left and
`⌈h/2⌉` on the right — symmetric within one pixel of rounding. -/
theorem fit_with_crop_symmetric (imgH : ℕ) (x y h : ℤ)
    (hih : 0 < imgH) (hh : 0 < h) :
    (fit_with_crop (2 * imgH) imgH x y h h).new_width = 2 * h ∧
      (fit_with_crop (2 * imgH) imgH x y h h).new_height = h ∧
      (fit_with_crop (2 * imgH) imgH x y h h).crop_x +
          ((fit_with_crop (2 * imgH) imgH x y h h).new_width -
            ((fit_with_crop (2 * imgH) imgH x y h h).crop_x + h)) = h ∧
      0 ≤ (fit_with_crop (2 * imgH) imgH x y h h).crop_x ∧
      (fit_with_crop (2 * imgH) imgH x y h h).crop_x ≤
        (fit_with_crop (2 * imgH) imgH x y h h).new_width -
          ((fit_with_crop (2 * imgH) imgH x y h h).crop_x + h) ∧
      ((fit_with_crop (2 * imgH) imgH x y h h).new_width -
          ((fit_with_crop (2 * imgH) imgH x y h h).crop_x + h)) -
        (fit_with_crop (2 * imgH) imgH x y h h).crop_x ≤ 1 := by
  have hihq : ((imgH : ℕ) : ℚ) ≠ 0 := by
    have : (0 : ℚ) < (imgH : ℚ) := by exact_mod_cast hih
    exact ne_of_gt this
  have hhq : ((h : ℤ) : ℚ) ≠ 0 := by
    have : (0 : ℚ) < ((h : ℤ) : ℚ) := by exact_mod_cast hh
    exact ne_of_gt this
  have hA : ((2 * imgH : ℕ) : ℚ) / ((imgH : ℕ) : ℚ) = 2 := by
    push_cast
    field_simp
  have hC : ((h : ℤ) : ℚ) / ((h : ℤ) : ℚ) = 1 := div_self hhq
  have hNW : ⌊((h : ℤ) : ℚ) * (((2 * imgH : ℕ) : ℚ) / ((imgH : ℕ) : ℚ))⌋ = 2 * h := by
    rw [hA]
    have : ((h : ℤ) : ℚ) * 2 = ((2 * h : ℤ) : ℚ) := by push_cast; ring
    rw [this, Int.floor_intCast]
  unfold fit_with_crop
  have hc : ((h : ℤ) : ℚ) / ((h : ℤ) : ℚ) < ((2 * imgH : ℕ) : ℚ) / ((imgH : ℕ) : ℚ) := by
    rw [hA, hC]; norm_num
  simp only [if_pos hc, hNW]
  have hcrop : h < 2 * h ∨ h < h := Or.inl (by omega)
  rw [if_pos hcrop]
  dsimp only
  obtain ⟨r, hra, hrb, hrc⟩ := fdiv_two_decomp (2 * h - h)
  have hmax : max 0 (Int.fdiv (2 * h - h) 2) = Int.fdiv (2 * h - h) 2 := by
    apply max_eq_right
    omega
  rw [hmax]
  refine ⟨rfl, rfl, by omega, by omega, by omega, by omega⟩

/-! ## Claim theorems -/

/-- C1: for every run of either layout mode, successfully placed rectangles
have pairwise disjoint cell ranges, and an occupied cell never becomes free
again (no operation clears a cell).  Stated for every valid placement
sequence, together with the fact that both modes only produce valid
sequences. -/
theorem layout_no_overlap_no_unclaim :
    (∀ (rows cols : ℕ) (g : Grid) (ps : List Placement),
        validSeq rows cols g ps = true → List.Pairwise RectDisjoint ps) ∧
      (∀ (g : Grid) (ps : List Placement) (r c : ℕ), g r c = true →
        runGrid g ps r c = true) ∧
      (∀ n sw sh, validSeq Chaos.GRID_ROWS Chaos.GRID_COLS emptyGrid
        (Chaos.chaosPlacements n sw sh) = true) ∧
      (∀ n sw sh us picks, validSeq Zen3.GRID_ROWS Zen3.GRID_COLS emptyGrid
        (Zen3.freeflowPlacements n sw sh us picks) = true) :=
  ⟨fun _ _ _ _ h => validSeq_pairwise_disjoint h,
    fun g ps r c h => runGrid_monotone ps g r c h,
    fun n sw sh => Chaos.chunkLoop_valid _ _ _ _ _ _ n _ emptyGrid 0,
    fun n sw sh us picks =>
      Zen3.freeflowLoop_valid _ _ _ _ _ _ n us picks (n * 3) emptyGrid 0 0⟩

theorem layout_no_overlap_no_unclaim_witness :
    List.Pairwise RectDisjoint
        [(⟨0, 2, 1, 0, 0, 0, 0, 0, 0⟩ : Placement), ⟨1, 1, 1, 0, 2, 0, 0, 0, 0⟩] ∧
      runGrid (occupy emptyGrid 1 1 0 0) [⟨1, 1, 1, 0, 2, 0, 0, 0, 0⟩] 0 0 = true :=
  ⟨layout_no_overlap_no_unclaim.1 6 24 emptyGrid _ (by decide),
    layout_no_overlap_no_unclaim.2.1 (occupy emptyGrid 1 1 0 0) _ 0 0 (by decide)⟩

/-- C2: every rectangle accepted by a `fits` check — in particular every
placement either mode performs — lies fully inside the grid bounds, so all
grid-cell reads and writes of the placement and occupy steps are in
bounds. -/
theorem layout_placements_in_bounds :
    (∀ (rows cols : ℕ) (g : Grid) (cw ch row col : ℕ),
        fits rows cols g cw ch row col = true →
        row + ch ≤ rows ∧ col + cw ≤ cols) ∧
      (∀ n sw sh p, p ∈ Chaos.chaosPlacements n sw sh →
        p.row + p.ch ≤ Chaos.GRID_ROWS ∧ p.col + p.cw ≤ Chaos.GRID_COLS) ∧
      (∀ n sw sh us picks p, p ∈ Zen3.freeflowPlacements n sw sh us picks →
        p.row + p.ch ≤ Zen3.GRID_ROWS ∧ p.col + p.cw ≤ Zen3.GRID_COLS) :=
  ⟨fun _ _ _ _ _ _ _ h => fits_bounds h,
    fun n sw sh p hp =>
      validSeq_bounds (Chaos.chunkLoop_valid _ _ _ _ _ _ n _ emptyGrid 0) p hp,
    fun n sw sh us picks p hp =>
      validSeq_bounds
        (Zen3.freeflowLoop_valid _ _ _ _ _ _ n us picks (n * 3) emptyGrid 0 0) p hp⟩

theorem layout_placements_in_bounds_witness :
    0 + 1 ≤ 6 ∧ 0 + 2 ≤ 24 :=
  layout_placements_in_bounds.1 6 24 emptyGrid 2 1 0 0 (by decide)

/-- C3: Mode B's main loop always terminates, performing at most
`3 × image count` iterations, whatever the catalog weights (`us` draw
oracle), the random choices (`picks`), or the grid fill state. -/
theorem freeflow_attempt_bound (n sw sh : ℕ) (us : ℕ → ℕ) (picks : ℕ → ℕ → ℕ) :
    (Zen3.create_freeflow_layout n sw sh us picks).length ≤ 3 * n := by
  have h := Zen3.freeflowLoop_length_le Zen3.GRID_ROWS Zen3.GRID_COLS
    Zen3.OUTER_PADDING Zen3.INNER_PADDING
    (cell_size sw Zen3.GRID_COLS Zen3.OUTER_PADDING Zen3.INNER_PADDING)
    (cell_size sh Zen3.GRID_ROWS Zen3.OUTER_PADDING Zen3.INNER_PADDING)
    n us picks (n * 3) emptyGrid 0 0
  rw [Zen3.create_freeflow_layout]
  omega

/-- C4: the deterministic placement policy returns the first anchor in
row-major order at which the shape is in bounds and fully free (none when no
in-range anchor fits); in particular a 2×1 chunk on the empty 6×24 grid is
placed at (0, 0). -/
theorem row_major_policy_correct :
    (∀ (rows cols : ℕ) (g : Grid) (cw ch r c : ℕ), 0 < cw → 0 < ch →
        findFirstFit rows cols g cw ch = some (r, c) →
        fits rows cols g cw ch r c = true ∧
          ∀ r' c', fits rows cols g cw ch r' c' = true →
            r < r' ∨ (r = r' ∧ c ≤ c')) ∧
      (∀ (rows cols : ℕ) (g : Grid) (cw ch : ℕ),
        findFirstFit rows cols g cw ch = none →
        ∀ r c, r < rows → c < cols → fits rows cols g cw ch r c = false) ∧
      findFirstFit Chaos.GRID_ROWS Chaos.GRID_COLS emptyGrid 2 1 = some (0, 0) := by
  refine ⟨?_, fun _ _ _ _ _ h => findFirstFit_none h, by decide⟩
  intro rows cols g cw ch r c hcw hch h
  obtain ⟨-, -, hfit, hmin⟩ := findFirstFit_some h
  refine ⟨hfit, fun r' c' hfit' => ?_⟩
  obtain ⟨hb1, hb2⟩ := fits_bounds hfit'
  exact hmin r' c' (by omega) (by omega) hfit'

theorem row_major_policy_correct_witness :
    fits 6 24 (occupy emptyGrid 1 1 0 0) 1 1 0 1 = true :=
  (row_major_policy_correct.1 6 24 (occupy emptyGrid 1 1 0 0) 1 1 0 1
    (by decide) (by decide) (by decide)).1

/-- C5: Mode B's fit-with-crop pastes a region of exactly the target
rectangle's dimensions at the rectangle's origin (no pasted pixel outside
the target); a 2:1 image fitted into a square target keeps the rectangle's
dimensions with the horizontal extremes cropped symmetrically within one
pixel of rounding. -/
theorem fit_with_crop_claim :
    (∀ (imgW imgH : ℕ) (x y w h : ℤ), 0 < imgW → 0 < imgH → 0 < w → 0 < h →
        (fit_with_crop imgW imgH x y w h).paste_w = w ∧
          (fit_with_crop imgW imgH x y w h).paste_h = h ∧
          (fit_with_crop imgW imgH x y w h).paste_x = x ∧
          (fit_with_crop imgW imgH x y w h).paste_y = y) ∧
      (∀ (imgH : ℕ) (x y h : ℤ), 0 < imgH → 0 < h →
        (fit_with_crop (2 * imgH) imgH x y h h).new_width = 2 * h ∧
          (fit_with_crop (2 * imgH) imgH x y h h).new_height = h ∧
          (fit_with_crop (2 * imgH) imgH x y h h).crop_x +
              ((fit_with_crop (2 * imgH) imgH x y h h).new_width -
                ((fit_with_crop (2 * imgH) imgH x y h h).crop_x + h)) = h ∧
          0 ≤ (fit_with_crop (2 * imgH) imgH x y h h).crop_x ∧
          (fit_with_crop (2 * imgH) imgH x y h h).crop_x ≤
            (fit_with_crop (2 * imgH) imgH x y h h).new_width -
              ((fit_with_crop (2 * imgH) imgH x y h h).crop_x + h) ∧
          ((fit_with_crop (2 * imgH) imgH x y h h).new_width -
              ((fit_with_crop (2 * imgH) imgH x y h h).crop_x + h)) -
            (fit_with_crop (2 * imgH) imgH x y h h).crop_x ≤ 1) :=
  ⟨fun imgW imgH x y w h h1 h2 h3 h4 =>
      fit_with_crop_paste_exact imgW imgH x y w h h1 h2 h3 h4,
    fun imgH x y h h1 h2 => fit_with_crop_symmetric imgH x y h h1 h2⟩

theorem fit_with_crop_claim_witness :
    (fit_with_crop 200 100 5 7 100 100).paste_w = 100 ∧
      (fit_with_crop 200 100 5 7 100 100).paste_h = 100 ∧
      (fit_with_crop 200 100 5 7 100 100).paste_x = 5 ∧
      (fit_with_crop 200 100 5 7 100 100).paste_y = 7 :=
  fit_with_crop_claim.1 200 100 5 7 100 100
    (by norm_num) (by norm_num) (by norm_num) (by norm_num)

/-- C6: Mode A's fit-without-crop scales the image to match the target
exactly on one axis and to at least the target on the other, and centers the
result so each axis's overflow splits between the two sides equally within
one pixel. -/
theorem fit_without_crop_claim :
    (∀ (imgW imgH : ℕ) (x y w h : ℤ), 0 < imgW → 0 < imgH → 0 < w → 0 < h →
        ((fit_without_crop imgW imgH x y w h).new_height = h ∧
            w ≤ (fit_without_crop imgW imgH x y w h).new_width) ∨
          ((fit_without_crop imgW imgH x y w h).new_width = w ∧
            h ≤ (fit_without_crop imgW imgH x y w h).new_height)) ∧
      (∀ (imgW imgH : ℕ) (x y w h : ℤ), 0 < imgW → 0 < imgH → 0 < w → 0 < h →
        ((x - (fit_without_crop imgW imgH x y w h).offset_x) +
            ((fit_without_crop imgW imgH x y w h).offset_x +
              (fit_without_crop imgW imgH x y w h).new_width - (x + w))
          = (fit_without_crop imgW imgH x y w h).new_width - w ∧
          0 ≤ x - (fit_without_crop imgW imgH x y w h).offset_x ∧
          0 ≤ (fit_without_crop imgW imgH x y w h).offset_x +
            (fit_without_crop imgW imgH x y w h).new_width - (x + w) ∧
          0 ≤ (x - (fit_without_crop imgW imgH x y w h).offset_x) -
            ((fit_without_crop imgW imgH x y w h).offset_x +
              (fit_without_crop imgW imgH x y w h).new_width - (x + w)) ∧
          (x - (fit_without_crop imgW imgH x y w h).offset_x) -
            ((fit_without_crop imgW imgH x y w h).offset_x +
              (fit_without_crop imgW imgH x y w h).new_width - (x + w)) ≤ 1) ∧
        ((y - (fit_without_crop imgW imgH x y w h).offset_y) +
            ((fit_without_crop imgW imgH x y w h).offset_y +
              (fit_without_crop imgW imgH x y w h).new_height - (y + h))
          = (fit_without_crop imgW imgH x y w h).new_height - h ∧
          0 ≤ y - (fit_without_crop imgW imgH x y w h).offset_y ∧
          0 ≤ (fit_without_crop imgW imgH x y w h).offset_y +
            (fit_without_crop imgW imgH x y w h).new_height - (y + h) ∧
          0 ≤ (y - (fit_without_crop imgW imgH x y w h).offset_y) -
            ((fit_without_crop imgW imgH x y w h).offset_y +
              (fit_without_crop imgW imgH x y w h).new_height - (y + h)) ∧
          (y - (fit_without_crop imgW imgH x y w h).offset_y) -
            ((fit_without_crop imgW imgH x y w h).offset_y +
              (fit_without_crop imgW imgH x y w h).new_height - (y + h)) ≤ 1)) :=
  ⟨fun imgW imgH x y w h h1 h2 h3 h4 =>
      fit_without_crop_covers imgW imgH x y w h h1 h2 h3 h4,
    fun imgW imgH x y w h h1 h2 h3 h4 =>
      fit_without_crop_centered imgW imgH x y w h h1 h2 h3 h4⟩

theorem fit_without_crop_claim_witness :
    ((fit_without_crop 200 100 0 0 100 100).new_height = 100 ∧
        100 ≤ (fit_without_crop 200 100 0 0 100 100).new_width) ∨
      ((fit_without_crop 200 100 0 0 100 100).new_width = 100 ∧
        100 ≤ (fit_without_crop 200 100 0 0 100 100).new_height) :=
  fit_without_crop_claim.1 200 100 0 0 100 100
    (by norm_num) (by norm_num) (by norm_num) (by norm_num)

/-- C7: every placement's pixel rectangle in either mode follows the spec's
formula: origin per axis is `outer_padding + cell_index * (cell_size +
inner_padding)` and size per axis is `shape_cells * cell_size +
(shape_cells - 1) * inner_padding`, with the cell size derived once from
screen resolution, grid dimensions and the padding constants. -/
theorem pixel_geometry_spec :
    (∀ n sw sh p, p ∈ Chaos.chaosPlacements n sw sh →
        p.px = spec_origin Chaos.OUTER_PADDING Chaos.INNER_PADDING
            (cell_size sw Chaos.GRID_COLS Chaos.OUTER_PADDING Chaos.INNER_PADDING) p.col ∧
          p.py = spec_origin Chaos.OUTER_PADDING Chaos.INNER_PADDING
            (cell_size sh Chaos.GRID_ROWS Chaos.OUTER_PADDING Chaos.INNER_PADDING) p.row ∧
          p.pw = spec_extent p.cw
            (cell_size sw Chaos.GRID_COLS Chaos.OUTER_PADDING Chaos.INNER_PADDING)
            Chaos.INNER_PADDING ∧
          p.ph = spec_extent p.ch
            (cell_size sh Chaos.GRID_ROWS Chaos.OUTER_PADDING Chaos.INNER_PADDING)
            Chaos.INNER_PADDING) ∧
      (∀ n sw sh us picks p, p ∈ Zen3.freeflowPlacements n sw sh us picks →
        p.px = spec_origin Zen3.OUTER_PADDING Zen3.INNER_PADDING
            (cell_size sw Zen3.GRID_COLS Zen3.OUTER_PADDING Zen3.INNER_PADDING) p.col ∧
          p.py = spec_origin Zen3.OUTER_PADDING Zen3.INNER_PADDING
            (cell_size sh Zen3.GRID_ROWS Zen3.OUTER_PADDING Zen3.INNER_PADDING) p.row ∧
          p.pw = spec_extent p.cw
            (cell_size sw Zen3.GRID_COLS Zen3.OUTER_PADDING Zen3.INNER_PADDING)
            Zen3.INNER_PADDING ∧
          p.ph = spec_extent p.ch
            (cell_size sh Zen3.GRID_ROWS Zen3.OUTER_PADDING Zen3.INNER_PADDING)
            Zen3.INNER_PADDING) :=
  ⟨fun n sw sh p hp =>
      Chaos.chunkLoop_pixel Chaos.GRID_ROWS Chaos.GRID_COLS Chaos.OUTER_PADDING
        Chaos.INNER_PADDING _ _ n _ emptyGrid 0 p hp,
    fun n sw sh us picks p hp =>
      Zen3.freeflowLoop_pixel Zen3.GRID_ROWS Zen3.GRID_COLS Zen3.OUTER_PADDING
        Zen3.INNER_PADDING _ _ n us picks (n * 3) emptyGrid 0 0 p hp⟩

theorem pixel_geometry_spec_witness :
    (⟨0, 6, 3, 0, 0, 30, 30, 1254, 684⟩ : Placement).px
      = spec_origin Chaos.OUTER_PADDING Chaos.INNER_PADDING
          (cell_size 5120 Chaos.GRID_COLS Chaos.OUTER_PADDING Chaos.INNER_PADDING)
          (⟨0, 6, 3, 0, 0, 30, 30, 1254, 684⟩ : Placement).col :=
  (pixel_geometry_spec.1 1 5120 1440 ⟨0, 6, 3, 0, 0, 30, 30, 1254, 684⟩ (by decide)).1

/-- C8: in Mode B, when the drawn shape has no valid placement the engine
tries the fallback shapes (2,1), (1,2), (1,1) in that order and uses the
first that has a placement; when none has one, the iteration is skipped
without consuming an image, without terminating the run, and with the grid
unchanged. -/
theorem freeflow_fallback_spec :
    (∀ (rows cols : ℕ) (g : Grid) (cw ch : ℕ) (picks : ℕ → ℕ),
        Zen3.has_placement rows cols g cw ch = false →
        ((Zen3.has_placement rows cols g 2 1 = true →
            ∃ r c, Zen3.tryWithFallback rows cols g cw ch picks = some ((2, 1), r, c) ∧
              fits rows cols g 2 1 r c = true) ∧
          (Zen3.has_placement rows cols g 2 1 = false →
            Zen3.has_placement rows cols g 1 2 = true →
            ∃ r c, Zen3.tryWithFallback rows cols g cw ch picks = some ((1, 2), r, c) ∧
              fits rows cols g 1 2 r c = true) ∧
          (Zen3.has_placement rows cols g 2 1 = false →
            Zen3.has_placement rows cols g 1 2 = false →
            Zen3.has_placement rows cols g 1 1 = true →
            ∃ r c, Zen3.tryWithFallback rows cols g cw ch picks = some ((1, 1), r, c) ∧
              fits rows cols g 1 1 r c = true) ∧
          (Zen3.has_placement rows cols g 2 1 = false →
            Zen3.has_placement rows cols g 1 2 = false →
            Zen3.has_placement rows cols g 1 1 = false →
            Zen3.tryWithFallback rows cols g cw ch picks = none))) ∧
      (∀ (rows cols op ip cW cH n : ℕ) (us : ℕ → ℕ) (picks : ℕ → ℕ → ℕ)
          (fuel : ℕ) (g : Grid) (idx att : ℕ), idx < n →
        Zen3.tryWithFallback rows cols g (Zen3.get_random_chunk (us att)).1
            (Zen3.get_random_chunk (us att)).2 (picks att) = none →
        Zen3.freeflowLoop rows cols op ip cW cH n us picks (fuel + 1) g idx att
          = ⟨(Zen3.get_random_chunk (us att)).1, (Zen3.get_random_chunk (us att)).2, none⟩ ::
            Zen3.freeflowLoop rows cols op ip cW cH n us picks fuel g idx (att + 1)) := by
  constructor
  · intro rows cols g cw ch picks h0
    have hn0 : Zen3.find_best_position rows cols g cw ch (picks 0) = none :=
      Zen3.find_best_position_none.mpr h0
    refine ⟨?_, ?_, ?_, ?_⟩
    · intro h21
      obtain ⟨r, c, hfb, hfit⟩ := @Zen3.find_best_position_of_has rows cols 2 1 (picks 1) g h21
      refine ⟨r, c, ?_, hfit⟩
      unfold Zen3.tryWithFallback
      rw [hn0, hfb]
    · intro h21 h12
      have hn1 : Zen3.find_best_position rows cols g 2 1 (picks 1) = none :=
        Zen3.find_best_position_none.mpr h21
      obtain ⟨r, c, hfb, hfit⟩ := @Zen3.find_best_position_of_has rows cols 1 2 (picks 2) g h12
      refine ⟨r, c, ?_, hfit⟩
      unfold Zen3.tryWithFallback
      rw [hn0, hn1, hfb]
    · intro h21 h12 h11
      have hn1 : Zen3.find_best_position rows cols g 2 1 (picks 1) = none :=
        Zen3.find_best_position_none.mpr h21
      have hn2 : Zen3.find_best_position rows cols g 1 2 (picks 2) = none :=
        Zen3.find_best_position_none.mpr h12
      obtain ⟨r, c, hfb, hfit⟩ := @Zen3.find_best_position_of_has rows cols 1 1 (picks 3) g h11
      refine ⟨r, c, ?_, hfit⟩
      unfold Zen3.tryWithFallback
      rw [hn0, hn1, hn2, hfb]
    · intro h21 h12 h11
      have hn1 : Zen3.find_best_position rows cols g 2 1 (picks 1) = none :=
        Zen3.find_best_position_none.mpr h21
      have hn2 : Zen3.find_best_position rows cols g 1 2 (picks 2) = none :=
        Zen3.find_best_position_none.mpr h12
      have hn3 : Zen3.find_best_position rows cols g 1 1 (picks 3) = none :=
        Zen3.find_best_position_none.mpr h11
      unfold Zen3.tryWithFallback
      rw [hn0, hn1, hn2, hn3]
  · intro rows cols op ip cW cH n us picks fuel g idx att hidx ht
    exact Zen3.freeflowLoop_skip rows cols op ip cW cH n us picks fuel g idx att hidx ht

theorem freeflow_fallback_spec_witness :
    Zen3.has_placement 1 2 emptyGrid 3 3 = false ∧
      ∃ r c, Zen3.tryWithFallback 1 2 emptyGrid 3 3 (fun _ => 0) = some ((2, 1), r, c) ∧
        fits 1 2 emptyGrid 2 1 r c = true :=
  ⟨by decide,
    (freeflow_fallback_spec.1 1 2 emptyGrid 3 3 (fun _ => 0) (by decide)).1 (by decide)⟩

/-- C9: Mode A stops at the image queue or the 100×-catalog budget,
whichever first: the trace never exceeds `CHUNKS.length * 100` attempts, the
consumed image indices are exactly `0, 1, 2, ...` in order (no image placed
twice) and all below the image count, nothing is placed once the queue is
exhausted, and a chunk shape that failed to place never places again at any
later attempt. -/
theorem chaos_stop_and_no_retry :
    (∀ n sw sh, (Chaos.create_chunk_grid_layout n sw sh).length
        ≤ Chaos.CHUNKS.length * 100) ∧
      (∀ (rows cols op ip cW cH n : ℕ) (shapes : List (ℕ × ℕ)) (g : Grid) (idx : ℕ),
        (Chaos.placementsA (Chaos.chunkLoop rows cols op ip cW cH n shapes g idx)).map
            Placement.imgIdx
          = List.range' idx
              (Chaos.placementsA
                (Chaos.chunkLoop rows cols op ip cW cH n shapes g idx)).length) ∧
      (∀ n sw sh p, p ∈ Chaos.chaosPlacements n sw sh → p.imgIdx < n) ∧
      (∀ (rows cols op ip cW cH n : ℕ) (shapes : List (ℕ × ℕ)) (g : Grid) (idx : ℕ),
        n ≤ idx →
        Chaos.placementsA (Chaos.chunkLoop rows cols op ip cW cH n shapes g idx) = []) ∧
      (∀ n sw sh, List.Pairwise
        (fun a b => a.res = none → b.cw = a.cw → b.ch = a.ch → b.res = none)
        (Chaos.create_chunk_grid_layout n sw sh)) :=
  ⟨fun n sw sh => Chaos.create_chunk_grid_layout_budget n sw sh,
    fun rows cols op ip cW cH n shapes g idx =>
      Chaos.chunkLoop_imgIdx rows cols op ip cW cH n shapes g idx,
    fun n sw sh p hp =>
      Chaos.chunkLoop_imgIdx_lt Chaos.GRID_ROWS Chaos.GRID_COLS Chaos.OUTER_PADDING
        Chaos.INNER_PADDING _ _ n _ emptyGrid 0 p hp,
    fun rows cols op ip cW cH n shapes g idx h =>
      Chaos.chunkLoop_exhausted rows cols op ip cW cH n shapes g idx h,
    fun n sw sh =>
      Chaos.chunkLoop_no_retry Chaos.GRID_ROWS Chaos.GRID_COLS Chaos.OUTER_PADDING
        Chaos.INNER_PADDING _ _ n _ emptyGrid 0⟩

theorem chaos_stop_and_no_retry_witness :
    (⟨0, 6, 3, 0, 0, 30, 30, 1254, 684⟩ : Placement).imgIdx < 1 ∧
      Chaos.placementsA
        (Chaos.chunkLoop 6 24 30 12 199 220 0 [(1, 1)] emptyGrid 0) = [] :=
  ⟨chaos_stop_and_no_retry.2.2.1 1 5120 1440 ⟨0, 6, 3, 0, 0, 30, 30, 1254, 684⟩ (by decide),
    chaos_stop_and_no_retry.2.2.2.1 6 24 30 12 199 220 0 [(1, 1)] emptyGrid 0 (by decide)⟩

/-- C10: Mode A shuffles the caller's image list in place — after the call
the argument is a permutation of its original contents — while Mode B
shuffles a copy, leaving its input list unchanged. -/
theorem shuffle_frame_effects :
    (∀ (α : Type) (draws : ℕ → ℕ) (images : List α),
        (chaos_images_after draws images).Perm images) ∧
      (∀ (α : Type) (draws : ℕ → ℕ) (images : List α),
        zen3_images_after draws images = images) :=
  ⟨fun _ draws images => pyShuffle_perm draws images, fun _ _ _ => rfl⟩

end Chonkywalls
